import Mathlib

open Batteries (TransCmp OrientedCmp BEqCmp)

/-!
Shallow embedding of `crates/language_model/src/provider/kimi_ai.rs` (the
KimiAi language-model provider) together with the pieces of its collaborators
(the `kimi_ai` wire crate and the `RateLimiter` admission controller) that the
specification describes but that are not part of the given sources.

The embedding keeps the source's names (`State.authenticate`,
`State.set_api_key`, `State.reset_api_key`, `provided_models`, `count_tokens`,
`use_any_tool`) and makes asynchronous effects explicit: the outcome of each
external operation (environment read, secure-storage read/write/delete) is an
explicit argument, and functions return the successor state together with the
result and, where relevant, the list of external queries performed.
-/

/-! ## Credential store (`State` in kimi_ai.rs) -/

/-- The in-memory credential state of the provider: the data fields of `State`
in `kimi_ai.rs`. The `_subscription` field is a gpui handle carrying no
credential data and is omitted. -/
structure State where
  api_key : Option String
  api_key_from_env : Bool
deriving DecidableEq, Repr

/-- Direct translation of `State::is_authenticated`. -/
def State.is_authenticated (s : State) : Bool :=
  s.api_key.isSome

/-- Outcome of `std::env::var`: the variable may be absent, or present but not
valid unicode (Rust's `VarError::NotUnicode`). -/
inductive VarError
  | notPresent
  | notUnicode
deriving DecidableEq, Repr

/-- Errors `State::authenticate` can produce. `envParseFailure` is the
spec's `AuthError::EnvParseFailure`; it is included so that theorems can state
that the code never produces it. -/
inductive AuthError
  | credentialsNotFound
  | invalidUtf8
  | storeReadFailed
  | envParseFailure
deriving DecidableEq, Repr

/-- External queries the credential store can perform while authenticating. -/
inductive CredentialQuery
  | envRead
  | storeRead
deriving DecidableEq, Repr

/-- The external world as `State::authenticate` observes it: the result of
reading the `KIMIAI_API_KEY_VAR` environment variable, the result of
`cx.read_credentials(api_url)` (which may fail, be absent, or yield a user
label together with a byte payload), and the behaviour of
`String::from_utf8` on byte payloads (decoding may fail on invalid UTF-8). -/
structure CredentialsEnv where
  env_var : Except VarError String
  read_credentials : Except Unit (Option (String × List Nat))
  from_utf8 : List Nat → Option String

/-- Direct translation of `State::authenticate`. If already authenticated it
returns `Ok(())` immediately (`Task::ready`). Otherwise it reads the
environment variable; on success it adopts that value with `from_env = true`.
Only when the environment read fails (absent or not unicode, since the source
matches `if let Ok(..)`) does it query secure storage, failing with
`credentials not found` when the store has no entry, and with a UTF-8 error
when the stored bytes do not decode. The third component records which
external sources were queried, in order. -/
def State.authenticate (s : State) (w : CredentialsEnv) :
    State × Except AuthError Unit × List CredentialQuery :=
  if s.is_authenticated then
    (s, Except.ok (), [])
  else
    match w.env_var with
    | Except.ok api_key =>
        ({ api_key := some api_key, api_key_from_env := true }, Except.ok (),
          [CredentialQuery.envRead])
    | Except.error _ =>
        match w.read_credentials with
        | Except.error _ =>
            (s, Except.error AuthError.storeReadFailed,
              [CredentialQuery.envRead, CredentialQuery.storeRead])
        | Except.ok none =>
            (s, Except.error AuthError.credentialsNotFound,
              [CredentialQuery.envRead, CredentialQuery.storeRead])
        | Except.ok (some (_, bytes)) =>
            match w.from_utf8 bytes with
            | none =>
                (s, Except.error AuthError.invalidUtf8,
                  [CredentialQuery.envRead, CredentialQuery.storeRead])
            | some api_key =>
                ({ api_key := some api_key, api_key_from_env := false }, Except.ok (),
                  [CredentialQuery.envRead, CredentialQuery.storeRead])

/-- Translation of `util::ResultExt::log_err`: the error is logged and
discarded, turning a result into an option. -/
def log_err {ε α : Type} (r : Except ε α) : Option α :=
  r.toOption

/-- Direct translation of `State::reset_api_key`. The outcome of
`cx.delete_credentials(api_url)` is the `delete_result` argument; the source
applies `.log_err()` to it, swallowing any error, and then unconditionally
clears both cache fields and returns `Ok(())`. -/
def State.reset_api_key (_ : State) (delete_result : Except Unit Unit) :
    State × Except Unit Unit :=
  let _ := log_err delete_result
  ({ api_key := none, api_key_from_env := false }, Except.ok ())

/-- Direct translation of `State::set_api_key`. The outcome of
`cx.write_credentials(api_url, "Bearer", api_key)` is the `write_result`
argument; the source awaits it with `?`, so a write error propagates before
the in-memory update runs, and only on success is the cached key replaced. -/
def State.set_api_key (s : State) (api_key : String) (write_result : Except Unit Unit) :
    State × Except Unit Unit :=
  match write_result with
  | Except.error e => (s, Except.error e)
  | Except.ok _ => ({ s with api_key := some api_key }, Except.ok ())

/-! ## Token estimator (`count_tokens` in kimi_ai.rs) -/

/-- Message roles; the source maps `Role::{User, Assistant, System}` 1:1. -/
inductive Role
  | user
  | assistant
  | system
deriving DecidableEq, Repr

/-- One request message. `string_contents` is the flattened textual content the
source obtains from `msg.string_contents()`. -/
structure LanguageModelMessage where
  role : Role
  string_contents : String
deriving DecidableEq, Repr

/-- The provider-agnostic request, restricted to the fields the embedded
operations read: its ordered message list. -/
structure LanguageModelRequest where
  messages : List LanguageModelMessage
deriving DecidableEq, Repr

/-- Direct translation of `KimiAiLanguageModel::count_tokens`: the sum over
messages of the character count (`chars().count()`, the number of unicode
scalar values, which is `String.length` here) of the message contents,
multiplied by 2. -/
def count_tokens (request : LanguageModelRequest) : Nat :=
  (request.messages.map (fun msg => msg.string_contents.length)).sum * 2

/-! ## Model catalog (`provided_models` in kimi_ai.rs) -/

/-- Modelled from the spec: the `kimi_ai` crate defining the `Model` enum is
not under `src/`. Per the spec a model descriptor carries an id, token limits
and a custom-override flag; the base set is static (it is a parameter of
`provided_models` below), and the `Custom` variant carries
`{name, max_tokens, max_output_tokens}` with its id equal to its name. -/
inductive Model
  | base (id : String) (max_tokens : Nat) (max_output_tokens : Option Nat)
  | Custom (name : String) (max_tokens : Nat) (max_output_tokens : Option Nat)
deriving DecidableEq, Repr

/-- The model's id: for `Custom` models this is the name. -/
def Model.id : Model → String
  | Model.base i _ _ => i
  | Model.Custom n _ _ => n

/-- Whether the model is the `Custom` variant (`matches!(model, Custom {..})`). -/
def Model.isCustom : Model → Bool
  | Model.base _ _ _ => false
  | Model.Custom _ _ _ => true

/-- Direct translation of `KimiAvailableModel` (a settings-provided model
override). -/
structure KimiAvailableModel where
  name : String
  max_tokens : Nat
  max_output_tokens : Option Nat
deriving DecidableEq, Repr

/-- A `collections::BTreeMap<String, _>` is modelled as an association list
kept strictly sorted by key under `compare`; `insert` replaces the value at
an already-present key, as the Rust map does. -/
def BTreeMap.insert {α : Type} (k : String) (v : α) :
    List (String × α) → List (String × α)
  | [] => [(k, v)]
  | (k', v') :: rest =>
    match compare k k' with
    | Ordering.lt => (k, v) :: (k', v') :: rest
    | Ordering.eq => (k, v) :: rest
    | Ordering.gt => (k', v') :: BTreeMap.insert k v rest

/-- Direct translation of `provided_models`: the non-custom base models are
inserted keyed by id into an empty `BTreeMap`, the settings overrides are then
inserted keyed by name as `Custom` models, and the catalog is the map's values
in key order. The static base set `base_models` is a parameter because the
`kimi_ai::Model::iter()` list lives outside `src/`. -/
def provided_models (base_models : List Model)
    (available_models : List KimiAvailableModel) : List Model :=
  let models : List (String × Model) := base_models.foldl
    (fun m model => if model.isCustom then m else BTreeMap.insert model.id model m) []
  let models := available_models.foldl
    (fun m am =>
      BTreeMap.insert am.name (Model.Custom am.name am.max_tokens am.max_output_tokens) m)
    models
  models.map (fun kv => kv.2)

/-! ## Wire request and tool forcing (`use_any_tool` in kimi_ai.rs) -/

/-- Modelled from the spec: the `kimi_ai` wire crate is not under `src/`; the
shape of `KimiFunctionDefinition` follows its construction sites in
`use_any_tool`. The JSON schema type is a type parameter since the embedding
never inspects schemas. -/
structure KimiFunctionDefinition (α : Type) where
  name : String
  description : Option String
  parameters : Option α
deriving DecidableEq, Repr

/-- Modelled from the spec: a wire tool definition wraps a function
definition. -/
inductive KimiToolDefinition (α : Type)
  | Function (function : KimiFunctionDefinition α)
deriving DecidableEq, Repr

/-- Modelled from the spec: the wire tool-choice policy; `Other` forces the
named tool carried by the wrapped definition ("no other tool may be
chosen"). -/
inductive KimiToolChoice (α : Type)
  | Auto
  | Other (tool : KimiToolDefinition α)
deriving DecidableEq, Repr

/-- The name a tool definition declares. -/
def KimiToolDefinition.function_name {α : Type} : KimiToolDefinition α → String
  | KimiToolDefinition.Function f => f.name

/-- A wire-format message: role mapped 1:1 and flattened text content. -/
structure KimiMessage where
  role : Role
  content : String
deriving DecidableEq, Repr

/-- The wire request, restricted to the fields `use_any_tool` constructs and
the spec describes: model id, messages, tool list, tool choice and output
limit. -/
structure KimiRequest (α : Type) where
  model : String
  messages : List KimiMessage
  tools : List (KimiToolDefinition α)
  tool_choice : Option (KimiToolChoice α)
  max_output_tokens : Option Nat
deriving DecidableEq, Repr

/-- Modelled from the spec: `LanguageModelRequest::into_kimi_ai` lives outside
`src/`. Per the Request Translator contract it maps roles 1:1, flattens each
message to its textual content, and sets no tools and no tool choice (those
are injected afterwards by `use_any_tool`). -/
def LanguageModelRequest.into_kimi_ai {α : Type} (request : LanguageModelRequest)
    (model : String) (max_output_tokens : Option Nat) : KimiRequest α :=
  { model := model
    messages := request.messages.map (fun m =>
      { role := m.role, content := m.string_contents })
    tools := []
    tool_choice := none
    max_output_tokens := max_output_tokens }

/-- Direct translation of the request construction in
`KimiAiLanguageModel::use_any_tool`: starting from `into_kimi_ai`, it sets
`tool_choice` to force `tool_name` (a definition carrying the name only), and
sets `tools` to the single definition carrying the name, the description and
the schema. -/
def use_any_tool_request {α : Type} (request : LanguageModelRequest) (model_id : String)
    (max_output_tokens : Option Nat) (tool_name : String) (tool_description : String)
    (schema : α) : KimiRequest α :=
  let r : KimiRequest α := request.into_kimi_ai model_id max_output_tokens
  let r := { r with
    tool_choice := some (KimiToolChoice.Other (KimiToolDefinition.Function
      { name := tool_name, description := none, parameters := none })) }
  { r with
    tools := [KimiToolDefinition.Function
      { name := tool_name, description := some tool_description, parameters := some schema }] }

/-! ## Admission control (`RateLimiter` uses in kimi_ai.rs) -/

/-- Admission-controller events observable during one call. -/
inductive AdmissionEvent
  | acquire
  | release
deriving DecidableEq, Repr

/-- Modelled from the spec: `RateLimiter` (the Admission Controller) is
defined elsewhere in the `language_model` crate, not under `src/`. Per the
spec, `run(task)` is a scoped acquisition: a slot is acquired before the work
starts and released on every exit path. The trace of one `run` call wraps the
wrapped task's trace in an acquire/release pair. -/
def RateLimiter.run_events (inner : List AdmissionEvent) : List AdmissionEvent :=
  AdmissionEvent.acquire :: inner ++ [AdmissionEvent.release]

/-- Modelled from the spec: `RateLimiter::stream` is the same scoped
acquisition around a streaming operation, the slot being released when the
stream fully terminates. -/
def RateLimiter.stream_events (inner : List AdmissionEvent) : List AdmissionEvent :=
  AdmissionEvent.acquire :: inner ++ [AdmissionEvent.release]

/-- Direct translation of `KimiAiLanguageModel::stream_completion` (the
inherent method): it wraps the network call `kimi_ai::stream_completion` —
which itself performs no admission-controller operation — in
`self.request_limiter.stream(..)`. -/
def stream_completion_events : List AdmissionEvent :=
  RateLimiter.stream_events []

/-- Modelled from the spec: `kimi_ai::extract_tool_args_from_events` (the
Stream Decoder's tool-arguments projection) lives outside `src/` and, per the
spec, does not use the Admission Controller itself. -/
def extract_tool_args_from_events_events : List AdmissionEvent := []

/-- Direct translation of the admission behaviour of
`KimiAiLanguageModel::use_any_tool`: the future returned by
`self.stream_completion(request, cx)` is awaited, and the decoder applied to
its stream, inside `self.request_limiter.run(..)`. -/
def use_any_tool_events : List AdmissionEvent :=
  RateLimiter.run_events
    (stream_completion_events ++ extract_tool_args_from_events_events)

/-- The number of admission-slot acquisitions in a trace. -/
def acquire_count (t : List AdmissionEvent) : Nat :=
  (t.filter (fun e => e == AdmissionEvent.acquire)).length

/-! ## Helper lemmas -/

/-- The length of a joined string is the sum of the lengths. -/
theorem length_join_eq (l : List String) :
    (String.join l).length = (l.map String.length).sum := by
  rw [String.join_eq]
  simp [String.length]
  congr 1

/-- Members of `BTreeMap.insert k v l` are the new binding or old members. -/
theorem mem_insert {α : Type} (k : String) (v : α) (l : List (String × α)) :
    ∀ b ∈ BTreeMap.insert k v l, b = (k, v) ∨ b ∈ l := by
  induction l with
  | nil => simp [BTreeMap.insert]
  | cons hd tl ih =>
    intro b hb
    rcases hd with ⟨k', v'⟩
    simp only [BTreeMap.insert] at hb
    simp only [List.mem_cons]
    rcases hcmp : compare k k' with _ | _ | _ <;> rw [hcmp] at hb <;>
      simp only [List.mem_cons] at hb
    · tauto
    · tauto
    · rcases hb with h | h
      · tauto
      · rcases ih b h with h' | h' <;> tauto

/-- Insertion preserves strict key sortedness. -/
theorem insert_pairwise {α : Type} (k : String) (v : α) (l : List (String × α))
    (h : l.Pairwise (fun a b => compare a.1 b.1 = Ordering.lt)) :
    (BTreeMap.insert k v l).Pairwise (fun a b => compare a.1 b.1 = Ordering.lt) := by
  induction l with
  | nil => simp [BTreeMap.insert]
  | cons hd tl ih =>
    rcases hd with ⟨k', v'⟩
    rw [List.pairwise_cons] at h
    obtain ⟨hhd, htl⟩ := h
    simp only [BTreeMap.insert]
    rcases hcmp : compare k k' with _ | _ | _
    · refine List.Pairwise.cons ?_ (List.Pairwise.cons hhd htl)
      intro b hb
      simp only [List.mem_cons] at hb
      rcases hb with h | h
      · subst h; exact hcmp
      · exact TransCmp.lt_trans hcmp (hhd b h)
    · refine List.Pairwise.cons ?_ htl
      intro b hb
      rw [TransCmp.cmp_congr_left hcmp]
      exact hhd b hb
    · refine List.Pairwise.cons ?_ (ih htl)
      intro b hb
      rcases mem_insert k v tl b hb with h | h
      · subst h
        exact OrientedCmp.cmp_eq_gt.mp hcmp
      · exact hhd b h

/-- Strict comparison of strings refutes boolean equality in both directions. -/
theorem beq_false_of_cmp_lt {a b : String} (h : compare a b = Ordering.lt) :
    (a == b) = false ∧ (b == a) = false := by
  have hne : a ≠ b := by
    intro he
    subst he
    exact absurd h (by simp [OrientedCmp.cmp_refl])
  constructor <;> simp [hne, Ne.symm hne]

/-- In a strictly sorted map, the entries whose key equals the inserted key
form exactly the inserted binding. -/
theorem insert_filter_self {α : Type} (k : String) (v : α) (l : List (String × α))
    (h : l.Pairwise (fun a b => compare a.1 b.1 = Ordering.lt)) :
    (BTreeMap.insert k v l).filter (fun kv => kv.1 == k) = [(k, v)] := by
  induction l with
  | nil => simp [BTreeMap.insert]
  | cons hd tl ih =>
    rcases hd with ⟨k', v'⟩
    rw [List.pairwise_cons] at h
    obtain ⟨hhd, htl⟩ := h
    simp only [BTreeMap.insert]
    rcases hcmp : compare k k' with _ | _ | _
    · have hnil : ((k', v') :: tl).filter (fun kv => kv.1 == k) = [] := by
        rw [List.filter_eq_nil_iff]
        intro b hb
        simp only [List.mem_cons] at hb
        rcases hb with hb | hb
        · subst hb
          simp [(beq_false_of_cmp_lt hcmp).2]
        · simp [(beq_false_of_cmp_lt (TransCmp.lt_trans hcmp (hhd b hb))).2]
      rw [List.filter_cons]
      simp only [hnil]
      simp
    · have hknil : tl.filter (fun kv => kv.1 == k) = [] := by
        rw [List.filter_eq_nil_iff]
        intro b hb
        have : compare k b.1 = Ordering.lt := by
          rw [TransCmp.cmp_congr_left hcmp]
          exact hhd b hb
        simp [(beq_false_of_cmp_lt this).2]
      rw [List.filter_cons]
      simp [hknil]
    · rw [List.filter_cons]
      have : ((k', v').1 == k) = false := by
        have : compare k' k = Ordering.lt := OrientedCmp.cmp_eq_gt.mp hcmp
        exact (beq_false_of_cmp_lt this).1
      simp only [this]
      simp only [Bool.false_eq_true, if_false]
      exact ih htl

/-- Inserting under one key does not change the entries at a different key. -/
theorem insert_filter_other {α : Type} (k n : String) (v : α) (l : List (String × α))
    (hne : (k == n) = false) :
    (BTreeMap.insert k v l).filter (fun kv => kv.1 == n)
      = l.filter (fun kv => kv.1 == n) := by
  induction l with
  | nil => simp [BTreeMap.insert, hne]
  | cons hd tl ih =>
    rcases hd with ⟨k', v'⟩
    simp only [BTreeMap.insert]
    rcases hcmp : compare k k' with _ | _ | _
    · simp [List.filter_cons, hne]
    · have hk' : k' = k := BEqCmp.cmp_iff_eq.mp (OrientedCmp.cmp_eq_eq_symm.mp hcmp)
      subst hk'
      simp [List.filter_cons, hne]
    · simp only [List.filter_cons]
      rw [ih]

/-- The base-model fold of `provided_models` preserves key sortedness. -/
theorem base_fold_pairwise (bs : List Model) (acc : List (String × Model))
    (h : acc.Pairwise (fun a b => compare a.1 b.1 = Ordering.lt)) :
    (bs.foldl
        (fun m model => if model.isCustom then m else BTreeMap.insert model.id model m)
        acc).Pairwise (fun a b => compare a.1 b.1 = Ordering.lt) := by
  induction bs generalizing acc with
  | nil => exact h
  | cons hd tl ih =>
    simp only [List.foldl_cons]
    rcases hc : hd.isCustom with _ | _
    · simp only [hc, Bool.false_eq_true, if_false]
      exact ih _ (insert_pairwise _ _ _ h)
    · simp only [hc, if_true]
      exact ih _ h

/-- The base-model fold only creates entries whose key is the model's id. -/
theorem base_fold_key_id (bs : List Model) (acc : List (String × Model))
    (h : ∀ kv ∈ acc, kv.1 = kv.2.id) :
    ∀ kv ∈ (bs.foldl
        (fun m model => if model.isCustom then m else BTreeMap.insert model.id model m)
        acc), kv.1 = kv.2.id := by
  induction bs generalizing acc with
  | nil => exact h
  | cons hd tl ih =>
    simp only [List.foldl_cons]
    rcases hc : hd.isCustom with _ | _
    · simp only [hc, Bool.false_eq_true, if_false]
      refine ih _ ?_
      intro kv hkv
      rcases mem_insert hd.id hd acc kv hkv with h' | h'
      · subst h'; rfl
      · exact h kv h'
    · simp only [hc, if_true]
      exact ih _ h

/-- The settings-override fold of `provided_models` preserves key sortedness. -/
theorem override_fold_pairwise (ams : List KimiAvailableModel)
    (acc : List (String × Model))
    (h : acc.Pairwise (fun a b => compare a.1 b.1 = Ordering.lt)) :
    (ams.foldl
        (fun m am =>
          BTreeMap.insert am.name (Model.Custom am.name am.max_tokens am.max_output_tokens) m)
        acc).Pairwise (fun a b => compare a.1 b.1 = Ordering.lt) := by
  induction ams generalizing acc with
  | nil => exact h
  | cons hd tl ih =>
    simp only [List.foldl_cons]
    exact ih _ (insert_pairwise _ _ _ h)

/-- The settings-override fold only creates entries whose key is the model's id. -/
theorem override_fold_key_id (ams : List KimiAvailableModel)
    (acc : List (String × Model))
    (h : ∀ kv ∈ acc, kv.1 = kv.2.id) :
    ∀ kv ∈ (ams.foldl
        (fun m am =>
          BTreeMap.insert am.name (Model.Custom am.name am.max_tokens am.max_output_tokens) m)
        acc), kv.1 = kv.2.id := by
  induction ams generalizing acc with
  | nil => exact h
  | cons hd tl ih =>
    simp only [List.foldl_cons]
    refine ih _ ?_
    intro kv hkv
    rcases mem_insert hd.name _ acc kv hkv with h' | h'
    · subst h'; rfl
    · exact h kv h'

/-- After the settings-override fold, the entries at a key are determined by
the last override with that name, and otherwise by the accumulator. -/
theorem override_fold_filter (ams : List KimiAvailableModel)
    (acc : List (String × Model)) (n : String)
    (h : acc.Pairwise (fun a b => compare a.1 b.1 = Ordering.lt)) :
    ((ams.foldl
        (fun m am =>
          BTreeMap.insert am.name (Model.Custom am.name am.max_tokens am.max_output_tokens) m)
        acc).filter (fun kv => kv.1 == n))
      = match ams.reverse.find? (fun a => a.name == n) with
        | some am => [(am.name, Model.Custom am.name am.max_tokens am.max_output_tokens)]
        | none => acc.filter (fun kv => kv.1 == n) := by
  induction ams generalizing acc with
  | nil => rfl
  | cons hd tl ih =>
    simp only [List.foldl_cons, List.reverse_cons, List.find?_append]
    rw [ih _ (insert_pairwise _ _ _ h)]
    rcases hfind : tl.reverse.find? (fun a => a.name == n) with _ | am
    · simp only [hfind, Option.or]
      rcases hpa : (hd.name == n) with _ | _
      · simp only [List.find?_cons, hpa, List.find?_nil]
        exact insert_filter_other _ _ _ _ hpa
      · have hname : hd.name = n := by simpa using hpa
        simp only [List.find?_cons, hpa, List.find?_nil]
        subst hname
        exact insert_filter_self _ _ _ h
    · simp only [hfind, Option.or]

/-! ## Claim theorems -/

/-- C1, corrected: per `use_any_tool` call, the decoder
(`extract_tool_args_from_events`) itself performs no admission-controller
acquisition, but the call as a whole performs two acquisitions, not one: one
made by `request_limiter.stream` inside `stream_completion` (the network
call) and one made by the `request_limiter.run` wrapper around awaiting the
stream and decoding it. -/
theorem use_any_tool_admission_events_spec :
    acquire_count use_any_tool_events = 2
    ∧ acquire_count extract_tool_args_from_events_events = 0
    ∧ acquire_count stream_completion_events = 1 := by decide

/-- C1, counterexample to the claim as stated: a call to `use_any_tool` does
not perform exactly one admission-controller acquisition. -/
theorem use_any_tool_single_acquisition_refuted :
    ¬ acquire_count use_any_tool_events = 1 := by decide

/-- C2: for every state in which the credential is not yet resolved, if the
environment variable is present then `authenticate` adopts its value with
from-environment provenance, reports success, and performs no secure-storage
query, regardless of secure-storage contents. -/
theorem authenticate_env_precedence (s : State) (w : CredentialsEnv) (v : String)
    (hres : s.api_key = none) (henv : w.env_var = Except.ok v) :
    State.authenticate s w
      = ({ api_key := some v, api_key_from_env := true }, Except.ok (),
          [CredentialQuery.envRead]) := by
  simp [State.authenticate, State.is_authenticated, hres, henv]

/-- C2, witness: a concrete unresolved state and an environment whose secure
storage holds a different, decodable credential. -/
theorem authenticate_env_precedence_witness :
    (State.mk none false).api_key = none
    ∧ (CredentialsEnv.mk (Except.ok "env-key")
        (Except.ok (some ("Bearer", [107]))) (fun _ => some "store-key")).env_var
        = Except.ok "env-key"
    ∧ State.authenticate (State.mk none false)
        (CredentialsEnv.mk (Except.ok "env-key")
          (Except.ok (some ("Bearer", [107]))) (fun _ => some "store-key"))
      = ({ api_key := some "env-key", api_key_from_env := true }, Except.ok (),
          [CredentialQuery.envRead]) :=
  ⟨rfl, rfl, authenticate_env_precedence _ _ "env-key" rfl rfl⟩

/-- C3: when a credential is already resolved, `authenticate` succeeds,
leaves the state (hence the cached credential value) unchanged, and performs
no environment or secure-storage query. -/
theorem authenticate_idempotent (s : State) (w : CredentialsEnv) (k : String)
    (hkey : s.api_key = some k) :
    State.authenticate s w = (s, Except.ok (), [])
    ∧ (State.authenticate s w).1.api_key = some k := by
  constructor
  · simp [State.authenticate, State.is_authenticated, hkey]
  · simp [State.authenticate, State.is_authenticated, hkey]

/-- C3, witness: a concrete resolved state, with an environment offering a
different key in both sources. -/
theorem authenticate_idempotent_witness :
    (State.mk (some "cached") true).api_key = some "cached"
    ∧ State.authenticate (State.mk (some "cached") true)
        (CredentialsEnv.mk (Except.ok "other")
          (Except.ok (some ("Bearer", [107]))) (fun _ => some "store-key"))
      = (State.mk (some "cached") true, Except.ok (), [])
    ∧ (State.authenticate (State.mk (some "cached") true)
        (CredentialsEnv.mk (Except.ok "other")
          (Except.ok (some ("Bearer", [107]))) (fun _ => some "store-key"))).1.api_key
      = some "cached" :=
  ⟨rfl,
    (authenticate_idempotent _ _ "cached" rfl).1,
    (authenticate_idempotent _ _ "cached" rfl).2⟩

/-- C4: for every state and every secure-storage delete outcome (success or
error), `reset_api_key` clears the cached key, clears the from-environment
flag, and succeeds: the delete error is swallowed. -/
theorem reset_api_key_clears_cache (s : State) (delete_result : Except Unit Unit) :
    (State.reset_api_key s delete_result).1.api_key = none
    ∧ (State.reset_api_key s delete_result).1.api_key_from_env = false
    ∧ (State.reset_api_key s delete_result).2 = Except.ok () := by
  simp [State.reset_api_key]

/-- C5: if the secure-storage write fails, `set_api_key` propagates the error
and leaves the in-memory state unchanged; only on a successful write (which
the source performs first) is the cached key updated. -/
theorem set_api_key_error_atomicity (s : State) (api_key : String) :
    (∀ e : Unit, State.set_api_key s api_key (Except.error e) = (s, Except.error e))
    ∧ State.set_api_key s api_key (Except.ok ())
        = ({ s with api_key := some api_key }, Except.ok ()) := by
  exact ⟨fun e => rfl, rfl⟩

/-- C6: `count_tokens` is the character count of the concatenated message
contents scaled by the fixed multiplier 2 (a natural number, hence always a
non-negative integer), and it returns 0 on an empty message list. -/
theorem count_tokens_spec (request : LanguageModelRequest) :
    count_tokens request
      = (String.join (request.messages.map (fun m => m.string_contents))).length * 2
    ∧ count_tokens { messages := [] } = 0 := by
  constructor
  · rw [length_join_eq]
    simp only [count_tokens, List.map_map]
    congr 1
  · rfl

/-- C7: in the catalog produced by `provided_models`, a settings override
whose id (name) equals a non-custom base model's id yields exactly one
catalog entry for that id — the `Custom` model carrying the override's
limits, the override being the last settings entry with that name — and the
catalog is strictly sorted by id, so iteration order is deterministic. -/
theorem provided_models_override_spec
    (base_models : List Model) (available_models : List KimiAvailableModel)
    (am : KimiAvailableModel)
    (hbase : ∃ b ∈ base_models, b.id = am.name ∧ b.isCustom = false)
    (hlast : available_models.reverse.find? (fun a => a.name == am.name) = some am) :
    (provided_models base_models available_models).filter (fun m => m.id == am.name)
      = [Model.Custom am.name am.max_tokens am.max_output_tokens]
    ∧ (provided_models base_models available_models).Pairwise
        (fun m m' => compare m.id m'.id = Ordering.lt) := by
  clear hbase
  have hbasePW := base_fold_pairwise base_models [] List.Pairwise.nil
  have hbaseKI := base_fold_key_id base_models [] (by intro kv hkv; cases hkv)
  set pairs := available_models.foldl
    (fun m am =>
      BTreeMap.insert am.name (Model.Custom am.name am.max_tokens am.max_output_tokens) m)
    (base_models.foldl
      (fun m model => if model.isCustom then m else BTreeMap.insert model.id model m) [])
    with hpairs
  have hPW : pairs.Pairwise (fun a b => compare a.1 b.1 = Ordering.lt) :=
    override_fold_pairwise _ _ hbasePW
  have hKI : ∀ kv ∈ pairs, kv.1 = kv.2.id :=
    override_fold_key_id _ _ hbaseKI
  have hfilter : pairs.filter (fun kv => kv.1 == am.name)
      = [(am.name, Model.Custom am.name am.max_tokens am.max_output_tokens)] := by
    rw [hpairs, override_fold_filter _ _ _ hbasePW]
    simp only [hlast]
  have hpm : provided_models base_models available_models
      = pairs.map (fun kv => kv.2) := rfl
  constructor
  · rw [hpm, List.filter_map]
    have hcong : pairs.filter ((fun m => m.id == am.name) ∘ fun kv => kv.2)
        = pairs.filter (fun kv => kv.1 == am.name) := by
      apply List.filter_congr
      intro kv hkv
      simp only [Function.comp]
      rw [hKI kv hkv]
    rw [hcong, hfilter]
    rfl
  · rw [hpm, List.pairwise_map]
    apply hPW.imp_of_mem
    intro a b ha hb hr
    rw [← hKI _ ha, ← hKI _ hb]
    exact hr

/-- C7, witness: the spec's own example — base model `gpt` with max_tokens
8000 overridden by the settings entry `{name := gpt, max_tokens := 4000}`
yields exactly one `gpt` entry with the override's limits. -/
theorem provided_models_override_spec_witness :
    (∃ b ∈ [Model.base "gpt" 8000 none], b.id = "gpt" ∧ b.isCustom = false)
    ∧ ([KimiAvailableModel.mk "gpt" 4000 none].reverse.find?
        (fun a => a.name == "gpt") = some (KimiAvailableModel.mk "gpt" 4000 none))
    ∧ (provided_models [Model.base "gpt" 8000 none]
        [KimiAvailableModel.mk "gpt" 4000 none]).filter (fun m => m.id == "gpt")
      = [Model.Custom "gpt" 4000 none]
    ∧ (provided_models [Model.base "gpt" 8000 none]
        [KimiAvailableModel.mk "gpt" 4000 none]).Pairwise
        (fun m m' => compare m.id m'.id = Ordering.lt) :=
  ⟨by decide, by decide,
    (provided_models_override_spec [Model.base "gpt" 8000 none]
      [KimiAvailableModel.mk "gpt" 4000 none] (KimiAvailableModel.mk "gpt" 4000 none)
      (by decide) (by decide)).1,
    (provided_models_override_spec [Model.base "gpt" 8000 none]
      [KimiAvailableModel.mk "gpt" 4000 none] (KimiAvailableModel.mk "gpt" 4000 none)
      (by decide) (by decide)).2⟩

/-- C8: the wire request built by `use_any_tool` contains exactly one tool
definition, carrying the given name, description and schema; its tool choice
forces that named tool; and every tool it declares (there is only the one)
bears the forced name, so no other tool may be chosen. -/
theorem use_any_tool_request_spec {α : Type} (request : LanguageModelRequest)
    (model_id : String) (max_output_tokens : Option Nat)
    (tool_name tool_description : String) (schema : α) :
    (use_any_tool_request request model_id max_output_tokens tool_name tool_description
        schema).tools
      = [KimiToolDefinition.Function
          { name := tool_name, description := some tool_description,
            parameters := some schema }]
    ∧ (use_any_tool_request request model_id max_output_tokens tool_name tool_description
        schema).tool_choice
      = some (KimiToolChoice.Other (KimiToolDefinition.Function
          { name := tool_name, description := none, parameters := none }))
    ∧ ((use_any_tool_request request model_id max_output_tokens tool_name tool_description
        schema).tools.all (fun t => t.function_name == tool_name)) = true := by
  refine ⟨rfl, rfl, ?_⟩
  simp [use_any_tool_request, KimiToolDefinition.function_name]

/-- C9: `set_api_key` never changes the from-environment provenance flag
(on success only the cached key changes; on failure nothing changes), while
`reset_api_key` is the operation that clears the flag. -/
theorem set_api_key_frame (s : State) (api_key : String) :
    (∀ w : Except Unit Unit,
      ((State.set_api_key s api_key w).1).api_key_from_env = s.api_key_from_env)
    ∧ (State.set_api_key s api_key (Except.ok ())).1
        = { s with api_key := some api_key }
    ∧ ∀ d : Except Unit Unit, (State.reset_api_key s d).1.api_key_from_env = false := by
  refine ⟨?_, rfl, fun d => rfl⟩
  intro w
  cases w <;> rfl

/-- C10: if the environment variable is present but not valid unicode,
`authenticate` does not fail with an environment-parse error: it behaves
exactly as if the variable were absent, falling back to the secure-storage
lookup, and reports credentials-not-found only when that lookup yields
nothing. -/
theorem authenticate_env_not_unicode_fallback (s : State) (w : CredentialsEnv)
    (hres : s.api_key = none) (henv : w.env_var = Except.error VarError.notUnicode) :
    (State.authenticate s w).2.1 ≠ Except.error AuthError.envParseFailure
    ∧ State.authenticate s w
        = State.authenticate s { w with env_var := Except.error VarError.notPresent }
    ∧ (w.read_credentials = Except.ok none →
        State.authenticate s w
          = (s, Except.error AuthError.credentialsNotFound,
              [CredentialQuery.envRead, CredentialQuery.storeRead])) := by
  have hauth : s.is_authenticated = false := by
    simp [State.is_authenticated, hres]
  refine ⟨?_, ?_, ?_⟩
  · simp only [State.authenticate, hauth, henv, Bool.false_eq_true, if_false]
    rcases hrc : w.read_credentials with e | o
    · simp
    · rcases o with _ | ⟨label, bytes⟩
      · simp
      · rcases hut : w.from_utf8 bytes with _ | k <;> simp [hut]
  · simp only [State.authenticate, hauth, henv, Bool.false_eq_true, if_false]
  · intro hrc
    simp only [State.authenticate, hauth, henv, hrc, Bool.false_eq_true, if_false]

/-- C10, witness: a concrete unresolved state whose environment variable is
present but not unicode and whose secure storage is empty: authentication
falls through to the not-found error. -/
theorem authenticate_env_not_unicode_fallback_witness :
    (State.mk none false).api_key = none
    ∧ (CredentialsEnv.mk (Except.error VarError.notUnicode)
        (Except.ok none) (fun _ => none)).env_var = Except.error VarError.notUnicode
    ∧ State.authenticate (State.mk none false)
        (CredentialsEnv.mk (Except.error VarError.notUnicode)
          (Except.ok none) (fun _ => none))
      = (State.mk none false, Except.error AuthError.credentialsNotFound,
          [CredentialQuery.envRead, CredentialQuery.storeRead]) :=
  ⟨rfl, rfl,
    (authenticate_env_not_unicode_fallback _ _ rfl rfl).2.2 rfl⟩
